import Mathlib

/-!
Shallow embedding of the page classification, pageblock aggregation and
coalescing engine of `scan_unmovable.py` (coarse mode) and
`scan_unmovable_johannes.py` (fine mode), together with theorems settling
the specification claims about them.

Conventions: Python machine integers are modelled as `ℕ`/`ℤ` (the scripts
only ever produce non-negative PFNs and counters); Python floats in the
percentile helper are modelled as exact rationals `ℚ`; `assert` failures and
`sys.exit` are modelled as `Except.error`; the `while` loops are modelled as
fuel-indexed structural recursion, with fuel-sufficiency proved separately
(this is the termination content of the source loops).
-/

/-! ### Memory layout constants (scan_unmovable.py, lines 13-47) -/

def pageblock_nr_pages : ℕ := 512
def MAX_ORDER : ℕ := 11
def MAX_ORDER_NR_PAGES : ℕ := 1 <<< (MAX_ORDER - 1)
def PAGE_TYPE_BASE : ℕ := 0xF0000000
def PG_buddy : ℕ := 0x00000080
def PAGE_MAPPING_ANON : ℕ := 0x1
def PAGE_MAPPING_MOVABLE : ℕ := 0x2
def PAGE_MAPPING_FLAGS : ℕ := PAGE_MAPPING_ANON ||| PAGE_MAPPING_MOVABLE

/-! ### percentile (scan_unmovable.py, lines 51-70) -/

/-- Python `int()` applied to a rational: truncation toward zero. -/
def py_int (q : ℚ) : ℤ := if 0 ≤ q then ⌊q⌋ else ⌈q⌉

/-- `percentile(N, percent)` from scan_unmovable.py.  `N` must already be
sorted; the identity key function is inlined.  List indexing `N[i]` is
modelled with `getD`; for `0 ≤ percent ≤ 1` every computed rank is a valid
non-negative index, matching Python. -/
def percentile (N : List ℤ) (percent : ℚ) : Option ℤ :=
  if N.isEmpty then none
  else
    let k : ℚ := ((N.length : ℚ) - 1) * percent
    let f : ℤ := ⌊k⌋
    let c : ℤ := ⌈k⌉
    if f = c then some (N.getD (py_int k).toNat 0)
    else
      let d0 : ℚ := (N.getD f.toNat 0 : ℚ) * ((c : ℚ) - k)
      let d1 : ℚ := (N.getD c.toNat 0 : ℚ) * (k - (f : ℚ))
      some (py_int (d0 + d1))

/-! ### align (scan_unmovable.py, lines 73-76) -/

def align (x a : ℕ) : ℕ :=
  if x % a ≠ 0 then x + (a - x % a) else x

/-! ### build_list (scan_unmovable.py, lines 152-159) -/

/-- One coalescing step: for every `pfn` in `prev_set` whose buddy
`pfn ^^^ (1 <<< order)` is larger and also present, add the combined pfn
`buddy_pfn &&& pfn` to the result. -/
def build_list (prev_set : Finset ℕ) (order : ℕ) : Finset ℕ :=
  (prev_set.filter fun pfn =>
      pfn < pfn ^^^ (1 <<< order) ∧ pfn ^^^ (1 <<< order) ∈ prev_set).image
    fun pfn => (pfn ^^^ (1 <<< order)) &&& pfn

/-! ### Bit-arithmetic helper lemmas for buddy pairs -/

theorem mod_two_pow_succ_lt (p k : ℕ) (h : p.testBit k = false) :
    p % 2 ^ (k + 1) < 2 ^ k := by
  have hlt : p % 2 ^ (k + 1) < 2 ^ (k + 1) := Nat.mod_lt _ (Nat.two_pow_pos _)
  by_contra hge
  push_neg at hge
  have hbit : (p % 2 ^ (k + 1)).testBit k = true := by
    have hdiv : p % 2 ^ (k + 1) / 2 ^ k = 1 := by
      apply Nat.div_eq_of_lt_le
      · omega
      · have h2 : (2 : ℕ) ^ (k + 1) = 2 ^ k * 2 := by ring
        omega
    simp [Nat.testBit_to_div_mod, hdiv]
  rw [Nat.testBit_mod_two_pow] at hbit
  simp [h] at hbit

theorem xor_two_pow_eq_or (p k : ℕ) (h : p.testBit k = false) :
    p ^^^ 2 ^ k = p ||| 2 ^ k := by
  apply Nat.eq_of_testBit_eq
  intro j
  rcases eq_or_ne j k with rfl | hjk
  · simp [Nat.testBit_xor, Nat.testBit_or, h, Nat.testBit_two_pow_self]
  · simp [Nat.testBit_xor, Nat.testBit_or, Nat.testBit_two_pow_of_ne (Ne.symm hjk)]

theorem or_two_pow_eq_add (p k : ℕ) (h : p.testBit k = false) :
    p ||| 2 ^ k = p + 2 ^ k := by
  have hlo : p % 2 ^ (k + 1) < 2 ^ k := mod_two_pow_succ_lt p k h
  have hdecomp : p = 2 ^ (k + 1) * (p / 2 ^ (k + 1)) + p % 2 ^ (k + 1) :=
    (Nat.div_add_mod p (2 ^ (k + 1))).symm
  set hi := p / 2 ^ (k + 1) with hhi
  set lo := p % 2 ^ (k + 1) with hlo2
  have hstep : (2 : ℕ) ^ k < 2 ^ (k + 1) := by
    have heq : (2 : ℕ) ^ (k + 1) = 2 ^ k + 2 ^ k := by ring
    have := Nat.two_pow_pos k
    omega
  have h1 : 2 ^ (k + 1) * hi + lo = 2 ^ (k + 1) * hi ||| lo :=
    Nat.mul_add_lt_is_or (lt_trans hlo hstep) hi
  have h2 : 2 ^ (k + 1) * hi + (lo + 2 ^ k) = 2 ^ (k + 1) * hi ||| (lo + 2 ^ k) := by
    apply Nat.mul_add_lt_is_or
    have : (2 : ℕ) ^ (k + 1) = 2 ^ k + 2 ^ k := by ring
    omega
  have h3 : lo + 2 ^ k = lo ||| 2 ^ k := by
    have := Nat.mul_add_lt_is_or (i := k) (b := lo) hlo 1
    simpa [Nat.mul_one, Nat.add_comm, Nat.lor_comm] using this
  calc p ||| 2 ^ k = (2 ^ (k + 1) * hi ||| lo) ||| 2 ^ k := by rw [← h1, ← hdecomp]
    _ = 2 ^ (k + 1) * hi ||| (lo ||| 2 ^ k) := Nat.lor_assoc _ _ _
    _ = 2 ^ (k + 1) * hi ||| (lo + 2 ^ k) := by rw [← h3]
    _ = 2 ^ (k + 1) * hi + (lo + 2 ^ k) := by rw [← h2]
    _ = p + 2 ^ k := by omega

theorem xor_two_pow_eq_add (p k : ℕ) (h : p.testBit k = false) :
    p ^^^ 2 ^ k = p + 2 ^ k := by
  rw [xor_two_pow_eq_or p k h, or_two_pow_eq_add p k h]

theorem and_xor_two_pow_self (p k : ℕ) (h : p.testBit k = false) :
    p &&& (p ^^^ 2 ^ k) = p := by
  apply Nat.eq_of_testBit_eq
  intro j
  rcases eq_or_ne j k with rfl | hjk
  · simp [Nat.testBit_and, h]
  · simp [Nat.testBit_and, Nat.testBit_xor,
      Nat.testBit_two_pow_of_ne (Ne.symm hjk)]

theorem xor_two_pow_lt (p k : ℕ) (h : p.testBit k = true) :
    p ^^^ 2 ^ k < p := by
  set q := p ^^^ 2 ^ k with hq
  have hqbit : q.testBit k = false := by
    simp [hq, Nat.testBit_xor, h, Nat.testBit_two_pow_self]
  have hback : q ^^^ 2 ^ k = p := by
    simp [hq, Nat.xor_assoc]
  have := xor_two_pow_eq_add q k hqbit
  rw [hback] at this
  have hpos : 0 < 2 ^ k := Nat.two_pow_pos k
  omega

theorem lt_xor_two_pow_iff (p k : ℕ) :
    p < p ^^^ 2 ^ k ↔ p.testBit k = false := by
  constructor
  · intro hlt
    by_contra hbit
    simp only [Bool.not_eq_false] at hbit
    exact absurd hlt (not_lt.mpr (le_of_lt (xor_two_pow_lt p k hbit)))
  · intro hbit
    rw [xor_two_pow_eq_add p k hbit]
    have := Nat.two_pow_pos k
    omega

theorem shiftLeft_one (k : ℕ) : 1 <<< k = 2 ^ k := by
  simp [Nat.shiftLeft_eq]

/-- C1: the coalescing step `build_list S k` contains exactly the PFNs `p`
with `p ∈ S`, buddy `p ^^^ (1 <<< k) ∈ S` and buddy greater than `p`; for
such a member the stored combined start `buddy &&& p` equals
`min p buddy = p`, and both `p` and `p + (1 <<< k)` were present in `S`. -/
theorem C1_coalescing_step (S : Finset ℕ) (k p : ℕ) :
    (p ∈ build_list S k ↔
      p ∈ S ∧ p ^^^ (1 <<< k) ∈ S ∧ p < p ^^^ (1 <<< k))
  ∧ (p ∈ build_list S k →
      (p ^^^ (1 <<< k)) &&& p = min p (p ^^^ (1 <<< k))
    ∧ min p (p ^^^ (1 <<< k)) = p
    ∧ p ∈ S ∧ p + (1 <<< k) ∈ S) := by
  rw [shiftLeft_one]
  have hmem : p ∈ build_list S k ↔
      p ∈ S ∧ p ^^^ 2 ^ k ∈ S ∧ p < p ^^^ 2 ^ k := by
    unfold build_list
    rw [shiftLeft_one]
    constructor
    · intro hp
      rcases Finset.mem_image.mp hp with ⟨q, hq, hqp⟩
      rcases Finset.mem_filter.mp hq with ⟨hqS, hlt, hbS⟩
      have hbit : q.testBit k = false := (lt_xor_two_pow_iff q k).mp hlt
      have hcomb : (q ^^^ 2 ^ k) &&& q = q := by
        rw [Nat.land_comm]
        exact and_xor_two_pow_self q k hbit
      rw [hcomb] at hqp
      subst hqp
      exact ⟨hqS, hbS, hlt⟩
    · rintro ⟨hpS, hbS, hlt⟩
      apply Finset.mem_image.mpr
      refine ⟨p, Finset.mem_filter.mpr ⟨hpS, hlt, hbS⟩, ?_⟩
      have hbit : p.testBit k = false := (lt_xor_two_pow_iff p k).mp hlt
      rw [Nat.land_comm]
      exact and_xor_two_pow_self p k hbit
  constructor
  · exact hmem
  · intro hp
    rcases hmem.mp hp with ⟨hpS, hbS, hlt⟩
    have hbit : p.testBit k = false := (lt_xor_two_pow_iff p k).mp hlt
    have hadd : p ^^^ 2 ^ k = p + 2 ^ k := xor_two_pow_eq_add p k hbit
    refine ⟨?_, ?_, hpS, ?_⟩
    · rw [Nat.land_comm, and_xor_two_pow_self p k hbit]
      exact (min_eq_left (le_of_lt hlt)).symm
    · exact min_eq_left (le_of_lt hlt)
    · rw [← hadd]; exact hbS

/-- Closed witness for `C1_coalescing_step` at `S = {0, 512}`, `k = 9`. -/
theorem C1_coalescing_step_witness :
    0 ∈ build_list ({0, 512} : Finset ℕ) 9
  ∧ 0 ∈ ({0, 512} : Finset ℕ) ∧ 0 + (1 <<< 9) ∈ ({0, 512} : Finset ℕ) := by
  have h0 : 0 ∈ build_list ({0, 512} : Finset ℕ) 9 := by decide
  have h := (C1_coalescing_step ({0, 512} : Finset ℕ) 9 0).2 h0
  exact ⟨h0, h.2.2.1, h.2.2.2⟩

/-- C3: one coalescing step at most halves the number of regions:
`|build_list S k| ≤ |S| / 2`. -/
theorem C3_coalescing_halves (S : Finset ℕ) (k : ℕ) :
    (build_list S k).card ≤ S.card / 2 := by
  rw [Nat.le_div_iff_mul_le (by norm_num : 0 < 2)]
  unfold build_list
  set F := S.filter fun pfn =>
      pfn < pfn ^^^ (1 <<< k) ∧ pfn ^^^ (1 <<< k) ∈ S with hF
  have himg : (F.image fun pfn => (pfn ^^^ (1 <<< k)) &&& pfn).card ≤ F.card :=
    Finset.card_image_le
  set B := F.image (fun pfn => pfn ^^^ (1 <<< k)) with hB
  have hBcard : B.card = F.card := by
    apply Finset.card_image_of_injective
    intro a b hab
    simpa [Nat.xor_assoc] using congrArg (fun x => x ^^^ (1 <<< k)) hab
  have hFS : F ⊆ S := Finset.filter_subset _ _
  have hBS : B ⊆ S := by
    intro q hq
    rcases Finset.mem_image.mp hq with ⟨a, ha, haq⟩
    rcases Finset.mem_filter.mp ha with ⟨_, _, hbS⟩
    rw [← haq]; exact hbS
  have hdisj : Disjoint F B := by
    rw [Finset.disjoint_left]
    intro q hqF hqB
    rcases Finset.mem_filter.mp hqF with ⟨_, hlt, _⟩
    rw [shiftLeft_one] at hlt
    have hqbit : q.testBit k = false := (lt_xor_two_pow_iff q k).mp hlt
    rcases Finset.mem_image.mp hqB with ⟨a, haF, haq⟩
    rcases Finset.mem_filter.mp haF with ⟨_, hlta, _⟩
    rw [shiftLeft_one] at hlta
    have habit : a.testBit k = false := (lt_xor_two_pow_iff a k).mp hlta
    have : q.testBit k = true := by
      rw [← haq, shiftLeft_one]
      simp [Nat.testBit_xor, habit, Nat.testBit_two_pow_self]
    rw [this] at hqbit
    exact Bool.noConfusion hqbit
  have hunion : F.card + B.card ≤ S.card := by
    rw [← Finset.card_union_of_disjoint hdisj]
    exact Finset.card_le_card (Finset.union_subset hFS hBS)
  omega

/-- C4: the percentile function returns no value on an empty list; when the
rank `k = (len(N)-1)*p` has equal floor and ceiling it returns `N[k]`
(so `percentile [5] 0.99 = 5`); otherwise it returns the truncated linear
interpolation (so `percentile [1,2,3,4] 0.5 = 2`). -/
theorem C4_percentile (N : List ℤ) (p : ℚ) :
    percentile [] p = none
  ∧ percentile [5] (99 / 100) = some 5
  ∧ percentile [1, 2, 3, 4] (1 / 2) = some 2
  ∧ (N ≠ [] →
      (⌊((N.length : ℚ) - 1) * p⌋ = ⌈((N.length : ℚ) - 1) * p⌉ →
        percentile N p =
          some (N.getD (py_int (((N.length : ℚ) - 1) * p)).toNat 0))
    ∧ (⌊((N.length : ℚ) - 1) * p⌋ ≠ ⌈((N.length : ℚ) - 1) * p⌉ →
        percentile N p =
          some (py_int
            ((N.getD ⌊((N.length : ℚ) - 1) * p⌋.toNat 0 : ℚ)
                * ((⌈((N.length : ℚ) - 1) * p⌉ : ℚ) - ((N.length : ℚ) - 1) * p)
            + (N.getD ⌈((N.length : ℚ) - 1) * p⌉.toNat 0 : ℚ)
                * (((N.length : ℚ) - 1) * p - (⌊((N.length : ℚ) - 1) * p⌋ : ℚ)))))) := by
  refine ⟨by simp [percentile], ?_, ?_, ?_⟩
  · norm_num [percentile, py_int]
  · have hc : ⌈(3 : ℚ) / 2⌉ = 2 := by norm_num [Int.ceil_eq_iff]
    norm_num [percentile, py_int, hc, show Int.toNat 2 = 2 from rfl]
  · intro hne
    have hemp : N.isEmpty = false := by
      cases N with
      | nil => simp at hne
      | cons a l => rfl
    constructor
    · intro hfc
      simp only [percentile, hemp, Bool.false_eq_true, if_false]
      rw [if_pos hfc]
    · intro hfc
      simp only [percentile, hemp, Bool.false_eq_true, if_false]
      rw [if_neg hfc]

/-- Closed witness for `C4_percentile` at `N = [1, 2, 3]`, `p = 1/2`. -/
theorem C4_percentile_witness :
    percentile ([] : List ℤ) (1 / 2) = none
  ∧ percentile [1, 2, 3] (1 / 2) = some 2 := by
  have h0 := (C4_percentile [1, 2, 3] (1 / 2)).1
  have h := ((C4_percentile [1, 2, 3] (1 / 2)).2.2.2 (by simp)).1 (by norm_num)
  refine ⟨h0, ?_⟩
  rw [h]
  norm_num [py_int]

/-! ### Coarse-mode page metadata (scan_unmovable.py, lines 106-134)

A `Page` records the raw metadata fields the coarse scan reads from one
`struct page`.  `priv` is the `private` member (a Lean keyword), and
`compound_order_val` is the raw `compound_order` member that the source
reads from the following struct page (`page[1].compound_order`).  The
snapshot is a pure provider function `ℕ → Page`. -/

structure Page where
  flags : ℕ
  page_type : ℕ
  mapping : ℕ
  priv : ℕ
  compound_head : ℕ
  compound_order_val : ℕ
deriving DecidableEq

/-- The kernel-dependent flag masks read from the debugged program
(`1 << prog[...]` in the source); they parameterize the classifier. -/
structure Masks where
  pg_reserved_mask : ℕ
  pg_head_mask : ℕ
  pg_lru_mask : ℕ
deriving DecidableEq

def test_bit (x mask : ℕ) : Bool := x &&& mask == mask

def PageBuddy (p : Page) : Bool :=
  p.page_type &&& (PAGE_TYPE_BASE ||| PG_buddy) == PAGE_TYPE_BASE

def PageReserved (m : Masks) (p : Page) : Bool := test_bit p.flags m.pg_reserved_mask

def PageCompound (m : Masks) (p : Page) : Bool :=
  test_bit p.flags m.pg_head_mask || (p.compound_head &&& 1 != 0)

/-- `compound_order(page)`: reads `page[1].compound_order`, i.e. the
`compound_order_val` of the next PFN, when the head flag is set. -/
def compound_order (m : Masks) (P : ℕ → Page) (pfn : ℕ) : ℕ :=
  if test_bit (P pfn).flags m.pg_head_mask then (P (pfn + 1)).compound_order_val else 0

def PageLRU (m : Masks) (p : Page) : Bool := test_bit p.flags m.pg_lru_mask

def PageMovable (p : Page) : Bool :=
  p.mapping &&& PAGE_MAPPING_FLAGS == PAGE_MAPPING_MOVABLE

/-! ### Coarse scan state and loops (scan_unmovable.py, lines 187-300) -/

/-- The per-block tallies of the coarse classification loop. -/
structure Tallies where
  unmovable : ℕ
  movable : ℕ
  reserved : ℕ
deriving DecidableEq

/-- The accumulators of the whole coarse scan. -/
structure ScanState where
  movable_2mb_pfns : List ℕ
  free_4mb_pfns : List ℕ
  regular_blocks : ℕ
  unmovable_pages_in_unmovable_blocks : List ℕ
  movable_pages_in_unmovable_blocks : List ℕ
deriving DecidableEq

def initState : ScanState := ⟨[], [], 0, [], []⟩

/-- The inner per-pageblock classification loop (lines 219-271).  A Python
`AssertionError` is modelled as `Except.error`; `none` means the fuel ran
out, which the fuel-sufficiency theorem below rules out.  The returned pfn
may overshoot `block_end` (compound/buddy run lengths are added without a
block-boundary clamp in the source). -/
def blockLoop (m : Masks) (P : ℕ → Page) (block_start block_end : ℕ) :
    ℕ → ℕ → Tallies → ScanState → Option (Except String (ℕ × Tallies × ScanState))
  | 0, pfn, t, st => if pfn < block_end then none else some (.ok (pfn, t, st))
  | fuel + 1, pfn, t, st =>
    if pfn < block_end then
        let page := P pfn
        if PageBuddy page then
          let freepage_order := page.priv
          let pfn2 := if freepage_order < MAX_ORDER then pfn + (1 <<< freepage_order) else pfn + 1
          if block_end < pfn2 then
            if freepage_order = 10 then
              blockLoop m P block_start block_end fuel pfn2 t
                { st with regular_blocks := st.regular_blocks + 1,
                          movable_2mb_pfns := st.movable_2mb_pfns
                            ++ [block_start, block_start + pageblock_nr_pages],
                          free_4mb_pfns := st.free_4mb_pfns ++ [block_start] }
            else some (.error ("assert freepage_order == 10"))
          else blockLoop m P block_start block_end fuel pfn2 t st
        else if PageCompound m page then
          let order := compound_order m P pfn
          if order < MAX_ORDER then
            if PageLRU m page then
              if order = 9 then
                let pfn2 := pfn + (1 <<< order)
                let t2 := { t with movable := t.movable + min ((1 <<< order) - 1) 511 + 1 }
                let st2 := { st with movable_2mb_pfns := st.movable_2mb_pfns ++ [block_start] }
                if block_end < pfn2 then some (.error ("assert order == 10"))
                else blockLoop m P block_start block_end fuel pfn2 t2 st2
              else some (.error ("assert order == 9"))
            else
              let pfn2 := pfn + (1 <<< order)
              let t2 := { t with unmovable := t.unmovable + min ((1 <<< order) - 1) 511 + 1 }
              if block_end < pfn2 then
                if order = 10 then
                  blockLoop m P block_start block_end fuel pfn2 t2
                    { st with unmovable_pages_in_unmovable_blocks :=
                                st.unmovable_pages_in_unmovable_blocks ++ [512],
                              movable_pages_in_unmovable_blocks :=
                                st.movable_pages_in_unmovable_blocks ++ [0] }
                else some (.error ("assert order == 10"))
              else blockLoop m P block_start block_end fuel pfn2 t2 st
          else
            let pfn2 := pfn + 1
            let t2 := if PageLRU m page then { t with movable := t.movable + 1 }
                      else { t with unmovable := t.unmovable + 1 }
            if block_end < pfn2 then some (.error ("assert order == 10"))
            else blockLoop m P block_start block_end fuel pfn2 t2 st
        else if PageReserved m page then
          blockLoop m P block_start block_end fuel (pfn + 1)
            { t with reserved := t.reserved + 1 } st
        else if PageLRU m page || PageMovable page then
          blockLoop m P block_start block_end fuel (pfn + 1)
            { t with movable := t.movable + 1 } st
        else
          blockLoop m P block_start block_end fuel (pfn + 1)
            { t with unmovable := t.unmovable + 1 } st
    else some (.ok (pfn, t, st))

/-- The per-block aggregation after the classification loop (lines 276-285). -/
def aggregate (t : Tallies) (block_start : ℕ) (st : ScanState) : ScanState :=
  if t.reserved = 512 then st
  else if t.unmovable = 0 then
    { st with regular_blocks := st.regular_blocks + 1,
              movable_2mb_pfns := st.movable_2mb_pfns ++ [block_start] }
  else
    { st with unmovable_pages_in_unmovable_blocks :=
                st.unmovable_pages_in_unmovable_blocks ++ [t.unmovable],
              movable_pages_in_unmovable_blocks :=
                st.movable_pages_in_unmovable_blocks ++ [t.movable] }

/-- The outer scan loop (lines 195-285).  `online` models `pfn_online`,
`boundary_pfn` models the `get_boundary()` result (`2^64` when the host
signal is absent).  The fast path's `movable_pages += 512` is a dead store
in the source (the tallies are re-initialized for every block and the fast
path bypasses aggregation), so it does not appear in the state. -/
def scanLoop (m : Masks) (P : ℕ → Page) (online : ℕ → Bool) (boundary_pfn max_pfn : ℕ) :
    ℕ → ℕ → ScanState → Option (Except String ScanState)
  | 0, pfn, st => if pfn < max_pfn then none else some (.ok st)
  | fuel + 1, pfn, st =>
    if pfn < max_pfn then
        if !online pfn then
          scanLoop m P online boundary_pfn max_pfn fuel (align (pfn + 1) MAX_ORDER_NR_PAGES) st
        else
          let block_start := pfn
          let block_end := min (align (pfn + 1) pageblock_nr_pages) max_pfn
          if boundary_pfn < pfn then
            scanLoop m P online boundary_pfn max_pfn fuel block_end
              { st with regular_blocks := st.regular_blocks + 1,
                        movable_2mb_pfns := st.movable_2mb_pfns ++ [block_start] }
          else
            match blockLoop m P block_start block_end (block_end - pfn) pfn ⟨0, 0, 0⟩ st with
            | none => none
            | some (.error e) => some (.error e)
            | some (.ok (pfn2, t, st2)) =>
              scanLoop m P online boundary_pfn max_pfn fuel pfn2 (aggregate t block_start st2)
    else some (.ok st)

/-- The free-page derivation over the two per-block sample arrays
(lines 292-300); `none` models the `assert free_pages_in_this_block >= 0`
failure (and the out-of-range access ruled out by the length assert). -/
def free_pages_calc : List ℕ → List ℕ → Option (List ℤ)
  | [], _ => some []
  | _ :: _, [] => none
  | u :: us, mv :: ms =>
    let f : ℤ := (512 : ℤ) - (mv : ℤ) - (u : ℤ)
    if f < 0 then none
    else match free_pages_calc us ms with
         | none => none
         | some rest => some (f :: rest)

theorem one_le_one_shiftLeft (k : ℕ) : 1 ≤ 1 <<< k := by
  rw [shiftLeft_one]; exact Nat.one_le_two_pow

theorem le_align (x a : ℕ) : x ≤ align x a := by
  unfold align; split <;> omega

theorem blockLoop_ok_le (m : Masks) (P : ℕ → Page) (bs be : ℕ) :
    ∀ fuel pfn t st pfn2 t2 st2,
      blockLoop m P bs be fuel pfn t st = some (.ok (pfn2, t2, st2)) →
      be ≤ pfn2 ∧ pfn ≤ pfn2 := by
  intro fuel
  induction fuel with
  | zero =>
    intro pfn t st pfn2 t2 st2 h
    simp only [blockLoop] at h
    split at h
    · simp at h
    · simp only [Option.some.injEq, Except.ok.injEq, Prod.mk.injEq] at h
      obtain ⟨h1, -, -⟩ := h
      omega
  | succ fuel ih =>
    intro pfn t st pfn2 t2 st2 h
    simp only [blockLoop] at h
    split at h
    case isTrue hlt =>
      have hb1 : 1 ≤ 1 <<< (P pfn).priv := one_le_one_shiftLeft _
      have hb2 : 1 ≤ 1 <<< compound_order m P pfn := one_le_one_shiftLeft _
      split at h
      · -- buddy branch
        by_cases hfo : (P pfn).priv < MAX_ORDER <;>
          [simp only [if_pos hfo] at h; simp only [if_neg hfo] at h] <;>
          split at h
        all_goals first
          | simp at h
          | {
              first
                | (split at h
                   · obtain ⟨ha, hx⟩ := ih _ _ _ _ _ _ h
                     omega
                   · simp at h)
                | (obtain ⟨ha, hx⟩ := ih _ _ _ _ _ _ h
                   omega) }
      · split at h
        · -- compound branch
          split at h
          · split at h
            · split at h
              · split at h
                · simp at h
                · obtain ⟨ha, hx⟩ := ih _ _ _ _ _ _ h
                  omega
              · simp at h
            · split at h
              · split at h
                · obtain ⟨ha, hx⟩ := ih _ _ _ _ _ _ h
                  omega
                · simp at h
              · obtain ⟨ha, hx⟩ := ih _ _ _ _ _ _ h
                omega
          · split at h
            · simp at h
            · obtain ⟨ha, hx⟩ := ih _ _ _ _ _ _ h
              omega
        · split at h
          · obtain ⟨ha, hx⟩ := ih _ _ _ _ _ _ h
            omega
          · split at h
            · obtain ⟨ha, hx⟩ := ih _ _ _ _ _ _ h
              omega
            · obtain ⟨ha, hx⟩ := ih _ _ _ _ _ _ h
              omega
    case isFalse hlt =>
      simp only [Option.some.injEq, Except.ok.injEq, Prod.mk.injEq] at h
      obtain ⟨h1, -, -⟩ := h
      omega

theorem blockLoop_isSome (m : Masks) (P : ℕ → Page) (bs be : ℕ) :
    ∀ fuel pfn t st, be - pfn ≤ fuel →
      (blockLoop m P bs be fuel pfn t st).isSome = true := by
  intro fuel
  induction fuel with
  | zero =>
    intro pfn t st hf
    simp only [blockLoop]
    split
    · omega
    · rfl
  | succ fuel ih =>
    intro pfn t st hf
    simp only [blockLoop]
    split
    case isTrue hlt =>
      have hb1 : 1 ≤ 1 <<< (P pfn).priv := one_le_one_shiftLeft _
      have hb2 : 1 ≤ 1 <<< compound_order m P pfn := one_le_one_shiftLeft _
      split
      · by_cases hfo : (P pfn).priv < MAX_ORDER <;>
          [simp only [if_pos hfo]; simp only [if_neg hfo]] <;>
          split
        all_goals first
          | rfl
          | (apply ih; omega)
          | (split
             · apply ih; omega
             · rfl)
      · split
        · split
          · split
            · split
              · split
                · rfl
                · apply ih; omega
              · rfl
            · split
              · split
                · apply ih; omega
                · rfl
              · apply ih; omega
          · split
            · rfl
            · apply ih; omega
        · split
          · apply ih; omega
          · split <;> (apply ih; omega)
    case isFalse hlt => rfl

theorem scanLoop_isSome (m : Masks) (P : ℕ → Page) (online : ℕ → Bool) (b maxp : ℕ) :
    ∀ fuel pfn st, maxp - pfn ≤ fuel →
      (scanLoop m P online b maxp fuel pfn st).isSome = true := by
  intro fuel
  induction fuel with
  | zero =>
    intro pfn st hf
    simp only [scanLoop]
    split
    · omega
    · rfl
  | succ fuel ih =>
    intro pfn st hf
    simp only [scanLoop]
    split
    case isTrue hlt =>
      have hal : pfn + 1 ≤ align (pfn + 1) MAX_ORDER_NR_PAGES := le_align _ _
      have hal2 : pfn + 1 ≤ align (pfn + 1) pageblock_nr_pages := le_align _ _
      split
      · apply ih; omega
      · split
        · apply ih; omega
        · have hbs := blockLoop_isSome m P pfn (min (align (pfn + 1) pageblock_nr_pages) maxp)
            (min (align (pfn + 1) pageblock_nr_pages) maxp - pfn) pfn ⟨0, 0, 0⟩ st (by omega)
          cases hres : blockLoop m P pfn (min (align (pfn + 1) pageblock_nr_pages) maxp)
              (min (align (pfn + 1) pageblock_nr_pages) maxp - pfn) pfn ⟨0, 0, 0⟩ st with
          | none => rw [hres] at hbs; simp at hbs
          | some r =>
            cases r with
            | error e => simp [hres]
            | ok v =>
              obtain ⟨pfn2, t, st2⟩ := v
              have hle := blockLoop_ok_le m P pfn
                (min (align (pfn + 1) pageblock_nr_pages) maxp) _ _ _ _ _ _ _ hres
              simp only [hres]
              apply ih
              omega
    case isFalse hlt => rfl

/-- A page that the coarse classifier sends to the plain-LRU branch:
not buddy, not compound, not reserved, LRU-resident. -/
def LruSingle (m : Masks) (p : Page) : Prop :=
  PageBuddy p = false ∧ PageCompound m p = false ∧ PageReserved m p = false
    ∧ PageLRU m p = true

theorem blockLoop_lru (m : Masks) (P : ℕ → Page) (bs be : ℕ) :
    ∀ k pfn t st, be - pfn = k → pfn ≤ be →
      (∀ q, pfn ≤ q → q < be → LruSingle m (P q)) →
      blockLoop m P bs be k pfn t st =
        some (.ok (be, { t with movable := t.movable + k }, st)) := by
  intro k
  induction k with
  | zero =>
    intro pfn t st hk hle hP
    simp only [blockLoop]
    split
    · omega
    · have hpe : pfn = be := by omega
      subst hpe
      simp
  | succ k ih =>
    intro pfn t st hk hle hP
    have hlt : pfn < be := by omega
    obtain ⟨hb, hc, hr, hl⟩ := hP pfn le_rfl hlt
    simp only [blockLoop]
    rw [if_pos hlt]
    simp only [hb, hc, hr, hl, Bool.false_eq_true, if_false, Bool.true_or,
      Bool.true_eq_false, if_true]
    rw [ih (pfn + 1) _ _ (by omega) (by omega)
      (fun q hq hq2 => hP q (by omega) hq2)]
    have harith : t.movable + 1 + k = t.movable + (k + 1) := by omega
    simp [harith]

theorem scanLoop_boundary_eq (m : Masks) (P : ℕ → Page) (online : ℕ → Bool) (b maxp : ℕ)
    (hmax : maxp ≤ 2 ^ 64)
    (hP : ∀ q, b < q → q < maxp → LruSingle m (P q)) :
    ∀ fuel pfn st,
      scanLoop m P online b maxp fuel pfn st =
      scanLoop m P online (2 ^ 64) maxp fuel pfn st := by
  intro fuel
  induction fuel with
  | zero => intro pfn st; simp only [scanLoop]
  | succ fuel ih =>
    intro pfn st
    simp only [scanLoop]
    split
    case isTrue hlt =>
      split
      · exact ih _ _
      · have hal2 : pfn + 1 ≤ align (pfn + 1) pageblock_nr_pages := le_align _ _
        by_cases hbd : b < pfn
        · rw [if_pos hbd, if_neg (by omega : ¬ (2 ^ 64 < pfn))]
          have hall : ∀ q, pfn ≤ q →
              q < min (align (pfn + 1) pageblock_nr_pages) maxp → LruSingle m (P q) := by
            intro q hq1 hq2
            exact hP q (by omega) (by omega)
          rw [blockLoop_lru m P pfn (min (align (pfn + 1) pageblock_nr_pages) maxp)
            (min (align (pfn + 1) pageblock_nr_pages) maxp - pfn) pfn ⟨0, 0, 0⟩ st rfl
            (by omega) hall]
          have hagg : aggregate
              { unmovable := 0, movable := 0 + (min (align (pfn + 1) pageblock_nr_pages) maxp - pfn), reserved := 0 }
              pfn st =
              { st with regular_blocks := st.regular_blocks + 1,
                        movable_2mb_pfns := st.movable_2mb_pfns ++ [pfn] } := by
            simp [aggregate]
          simp only [hagg]
          exact ih _ _
        · rw [if_neg hbd, if_neg (by omega : ¬ (2 ^ 64 < pfn))]
          cases hres : blockLoop m P pfn (min (align (pfn + 1) pageblock_nr_pages) maxp)
              (min (align (pfn + 1) pageblock_nr_pages) maxp - pfn) pfn ⟨0, 0, 0⟩ st with
          | none => rfl
          | some r =>
            cases r with
            | error e => rfl
            | ok v =>
              obtain ⟨pfn2, t, st2⟩ := v
              exact ih _ _
    case isFalse hlt => rfl

/-! ### Fine-mode model (scan_unmovable_johannes.py)

`FPage` records the metadata the fine scan reads for one page: the boolean
fields model the drgn page-flag helpers of the metadata provider
(`PageReserved`, `PageLRU`, `PageActive`, `PageUptodate`, `PageSlab`),
`compound_nr` models the provider's `compound_nr(page)` frame count, and
the numeric fields are raw struct members read directly by the script. -/

structure FPage where
  reserved : Bool
  lru : Bool
  active : Bool
  uptodate : Bool
  slab : Bool
  page_type_raw : ℕ
  allocflags : ℕ
  mapping : ℕ
  memcg_data : ℕ
  refcount : ℕ
  priv : ℕ
  compound_nr : ℕ
deriving DecidableEq

def pageblock_order : ℕ := 9
def __GFP_RECLAIMABLE : ℕ := 0x10

def BUDDY : ℕ := 0
def LRU : ℕ := 1
def SUNRECLAIM : ℕ := 2
def SRECLAIM : ℕ := 3
def ZSMALLOC : ℕ := 4
def KMEM : ℕ := 5
def RESERVED : ℕ := 6
def UNREF : ℕ := 7
def OTHER : ℕ := 8

/-- `page_type(p)` (lines 77-95): the nine-way fine taxonomy, checked in
precedence order with `reserved` first.  `zs` is the runtime address of
`zsmalloc_mops`.  (In the source the reserved test names the module-global
`page`; at the classification call site of the main loop that global is
exactly the argument, which is the reading modelled here.) -/
def page_type (zs : ℕ) (p : FPage) : ℕ :=
  if p.reserved then RESERVED
  else if p.page_type_raw &&& (0xf0000000 ||| 0x00000080) == 0xf0000000 then BUDDY
  else if p.slab then
    if p.allocflags &&& __GFP_RECLAIMABLE != 0 then SRECLAIM else SUNRECLAIM
  else if p.mapping == zs + 2 then ZSMALLOC
  else if p.lru || p.active || p.uptodate then LRU
  else if p.memcg_data &&& 2 != 0 then KMEM
  else if p.refcount == 0 then UNREF
  else OTHER

/-- Per-block category tallies of the fine scan (lines 146-153). -/
structure FTallies where
  buddy : ℕ
  lru : ℕ
  reserved : ℕ
  slab : ℕ
  kmem : ℕ
  other : ℕ
  has_nonmovable : Bool
deriving DecidableEq

/-- The fine per-pageblock loop (lines 155-227).  `sys.exit(1)` on a bogus
compound size is `Except.error` carrying the diagnostic; the
migratetype-mismatch branches only print and are therefore invisible in the
state.  `none` is fuel exhaustion (possible only if a provider reports a
compound frame count of zero, on which the source loops forever). -/
def fineBlockLoop (zs : ℕ) (FP : ℕ → FPage) (pfn : ℕ) :
    ℕ → ℕ → FTallies → Option (Except String FTallies)
  | 0, i, t => if i < 1 <<< pageblock_order then none else some (.ok t)
  | fuel + 1, i, t =>
    if i < 1 <<< pageblock_order then
      let p := FP (pfn + i)
      let ty := page_type zs p
      if ty = BUDDY then
        fineBlockLoop zs FP pfn fuel (i + (1 <<< p.priv))
          { t with buddy := t.buddy + (1 <<< p.priv) }
      else
        let nr := p.compound_nr
        if 512 < nr then
          some (.error (toString (pfn + i) ++ ": bogus compound size " ++ toString nr))
        else if ty = LRU then
          fineBlockLoop zs FP pfn fuel (i + nr) { t with lru := t.lru + nr }
        else if ty = SUNRECLAIM then
          fineBlockLoop zs FP pfn fuel (i + nr)
            { t with kmem := t.kmem + nr, has_nonmovable := true }
        else if ty = SRECLAIM then
          fineBlockLoop zs FP pfn fuel (i + nr) { t with slab := t.slab + nr }
        else if ty = ZSMALLOC then
          fineBlockLoop zs FP pfn fuel (i + nr) { t with lru := t.lru + nr }
        else if ty = KMEM then
          fineBlockLoop zs FP pfn fuel (i + nr)
            { t with kmem := t.kmem + nr, has_nonmovable := true }
        else if ty = RESERVED then
          fineBlockLoop zs FP pfn fuel (i + nr) { t with reserved := t.reserved + nr }
        else if ty = UNREF then
          fineBlockLoop zs FP pfn fuel (i + nr) { t with buddy := t.buddy + nr }
        else
          fineBlockLoop zs FP pfn fuel (i + nr)
            { t with other := t.other + nr, has_nonmovable := true }
    else some (.ok t)

def PAGES_PER_SECTION : ℕ := 1 <<< (27 - 12)

/-- The fine outer walk (lines 133-253), reduced to the pfn iteration the
range claim is about: it returns the visited block-start pfns.  The loop
condition in the committed source is the debug leftover `pfn <= 0x400`
(the `max_pfn` condition is commented out); an invalid section advances by
`PAGES_PER_SECTION`, a valid one is classified and advances by one
pageblock.  `none` is fuel exhaustion. -/
def fineWalk (validSec : ℕ → Bool) : ℕ → ℕ → List ℕ → Option (List ℕ)
  | 0, pfn, acc => if pfn ≤ 0x400 then none else some acc
  | fuel + 1, pfn, acc =>
    if pfn ≤ 0x400 then
      if validSec pfn then
        fineWalk validSec fuel (pfn + (1 <<< pageblock_order)) (acc ++ [pfn])
      else fineWalk validSec fuel (pfn + PAGES_PER_SECTION) acc
    else some acc

/-! ### Concrete fixtures for closed evaluations -/

deriving instance DecidableEq for Except

/-- Representative flag masks: reserved = bit 0, head = bit 1, lru = bit 2. -/
def masksA : Masks := ⟨1, 2, 4⟩

/-- A page with no flags set: the coarse classifier counts it unmovable. -/
def plainPage : Page := ⟨0, 0, 0, 0, 0, 0⟩

/-- A page with only the reserved flag set. -/
def reservedPage : Page := ⟨1, 0, 0, 0, 0, 0⟩

/-- A page with only the head flag set (a compound head, not LRU). -/
def headPage : Page := ⟨2, 0, 0, 0, 0, 0⟩

/-- A page whose raw compound_order member reads 10 (used as `page[1]`). -/
def orderTenPage : Page := ⟨0, 0, 0, 0, 0, 10⟩

/-- A page with only the LRU flag set. -/
def lruPage : Page := ⟨4, 0, 0, 0, 0, 0⟩

/-- A page with both the reserved and the LRU flag set. -/
def reservedLruPage : Page := ⟨5, 0, 0, 0, 0, 0⟩

/-- A racy snapshot: pfn 0 is an ordinary unmovable page and pfn 1 is
observed as a non-LRU compound head whose order (read at pfn 2) is 10. -/
def racyProvider : ℕ → Page :=
  fun pfn => if pfn = 1 then headPage else if pfn = 2 then orderTenPage else plainPage

/-- C10: the coarse scan terminates for every provider and every finite
`max_pfn`: every outer iteration advances the pfn by at least one, hence
fuel `max_pfn` always suffices for the walk starting at pfn 0 (offline
sections jump to an aligned boundary at least one past the current pfn, the
boundary fast path jumps to the block end, and every classification branch
of the inner loop advances by at least one frame, including the defensive
branches for an out-of-range reported order). -/
theorem C10_coarse_scan_terminates (m : Masks) (P : ℕ → Page) (online : ℕ → Bool)
    (boundary_pfn max_pfn : ℕ) (st : ScanState) :
    (scanLoop m P online boundary_pfn max_pfn max_pfn 0 st).isSome = true :=
  scanLoop_isSome m P online boundary_pfn max_pfn max_pfn 0 st (by omega)

/-- C7 as stated is false: with the host boundary signal present, every
online block above the boundary is counted as a regular movable block
without being classified, so results differ whenever such a block is not
fully movable.  Concretely: all pages unmovable, only the block at pfn 1024
online, `max_pfn = 1025`; with `boundary_pfn = 0` the scan reports one
regular block, with the signal absent (`2^64`) it reports an
unmovable-bearing block instead. -/
theorem C7_counterexample :
    scanLoop masksA (fun _ => plainPage) (fun pfn => decide (1024 ≤ pfn)) 0 1025 1025 0 initState
      = some (.ok ⟨[1024], [], 1, [], []⟩)
  ∧ scanLoop masksA (fun _ => plainPage) (fun pfn => decide (1024 ≤ pfn)) (2 ^ 64) 1025 1025 0 initState
      = some (.ok ⟨[], [], 0, [1], [0]⟩)
  ∧ ¬ (scanLoop masksA (fun _ => plainPage) (fun pfn => decide (1024 ≤ pfn)) 0 1025 1025 0 initState
      = scanLoop masksA (fun _ => plainPage) (fun pfn => decide (1024 ≤ pfn)) (2 ^ 64) 1025 1025 0 initState) := by
  refine ⟨by decide, by decide, by decide⟩

/-- C7 amended: the boundary fast path preserves the scan results provided
every pfn above the boundary and below `max_pfn` holds a plain LRU page
(not buddy, not compound, not reserved, LRU-resident) — then a block above
the boundary aggregates to exactly the regular-block outcome the fast path
asserts.  In general the fast path does change results, not only cost. -/
theorem C7_boundary_equiv_amended (m : Masks) (P : ℕ → Page) (online : ℕ → Bool)
    (b maxp : ℕ) (st : ScanState) (hmax : maxp ≤ 2 ^ 64)
    (hP : ∀ q, b < q → q < maxp → LruSingle m (P q)) :
    scanLoop m P online b maxp maxp 0 st = scanLoop m P online (2 ^ 64) maxp maxp 0 st :=
  scanLoop_boundary_eq m P online b maxp hmax hP maxp 0 st

/-- Closed witness for `C7_boundary_equiv_amended`: an all-LRU snapshot of
16 pages scanned with boundary 0 and with the signal absent. -/
theorem C7_boundary_equiv_amended_witness :
    scanLoop masksA (fun _ => lruPage) (fun _ => true) 0 16 16 0 initState
      = scanLoop masksA (fun _ => lruPage) (fun _ => true) (2 ^ 64) 16 16 0 initState :=
  C7_boundary_equiv_amended masksA (fun _ => lruPage) (fun _ => true) 0 16 initState
    (by norm_num) (fun q _ _ => show LruSingle masksA lruPage from ⟨rfl, rfl, rfl, rfl⟩)

/-- C2 fails on the code for a racy provider: in a block whose page 0 is an
ordinary unmovable page and whose page 1 is observed as a non-LRU compound
head of order 10, the inner loop finishes with `unmovable = 513`, so
`movable + unmovable + reserved = 513 > 512`; the per-compound clamp
`min((1 << order) - 1, 511)` ignores the position inside the block.  The
downstream `assert free_pages_in_this_block >= 0` (line 299) then fails on
the sample the aggregator records, contradicting the code's own assertion. -/
theorem C2_code_evaluation :
    blockLoop masksA racyProvider 0 512 512 0 ⟨0, 0, 0⟩ initState
      = some (.ok (1025, ⟨513, 0, 0⟩, ⟨[], [], 0, [512], [0]⟩))
  ∧ 513 + 0 + 0 > 512
  ∧ scanLoop masksA racyProvider (fun _ => true) (2 ^ 64) 512 512 0 initState
      = some (.ok ⟨[], [], 0, [512, 513], [0, 0]⟩)
  ∧ free_pages_calc [512, 513] [0, 0] = none := by
  refine ⟨by decide, by norm_num, by decide, by decide⟩

/-- C5 as stated is false: a truncated last block that is entirely reserved
does contribute to a counter.  With `max_pfn = 1` the single block consists
of one reserved page, so `reserved_pages = 1 ≠ 512` and `unmovable = 0`,
and the aggregator records it as a regular block with an order-9 movable
region — not nothing. -/
theorem C5_counterexample :
    scanLoop masksA (fun _ => reservedPage) (fun _ => true) (2 ^ 64) 1 1 0 initState
      = some (.ok ⟨[0], [], 1, [], []⟩)
  ∧ (⟨[0], [], 1, [], []⟩ : ScanState).regular_blocks ≠ 0 := by
  refine ⟨by decide, by decide⟩

/-- C5 amended: the aggregator applies exactly one of three mutually
exclusive outcomes, keyed on the tallies: a block whose reserved tally
equals exactly 512 contributes nothing (a truncated all-reserved block has
`reserved < 512` and `unmovable = 0` and is instead recorded as regular); a
block with zero unmovable pages is recorded as regular with its start pfn
as an order-9 movable region; any other block has its movable and unmovable
counts appended to the per-block sample arrays. -/
theorem C5_aggregation_amended (t : Tallies) (bs : ℕ) (st : ScanState) :
    (t.reserved = 512 → aggregate t bs st = st)
  ∧ (t.reserved ≠ 512 → t.unmovable = 0 →
      aggregate t bs st =
        { st with regular_blocks := st.regular_blocks + 1,
                  movable_2mb_pfns := st.movable_2mb_pfns ++ [bs] })
  ∧ (t.reserved ≠ 512 → t.unmovable ≠ 0 →
      aggregate t bs st =
        { st with unmovable_pages_in_unmovable_blocks :=
                    st.unmovable_pages_in_unmovable_blocks ++ [t.unmovable],
                  movable_pages_in_unmovable_blocks :=
                    st.movable_pages_in_unmovable_blocks ++ [t.movable] }) := by
  unfold aggregate
  refine ⟨fun h => by rw [if_pos h],
          fun h h2 => by rw [if_neg h, if_pos h2],
          fun h h2 => by rw [if_neg h, if_neg h2]⟩

/-- Closed witness for `C5_aggregation_amended`: a truncated all-reserved
block (100 reserved pages) lands in the regular branch; a full reserved
block (512) is dropped; an unmovable-bearing block is sampled. -/
theorem C5_aggregation_amended_witness :
    aggregate ⟨0, 0, 100⟩ 7 initState = ⟨[7], [], 1, [], []⟩
  ∧ aggregate ⟨0, 0, 512⟩ 7 initState = initState
  ∧ aggregate ⟨3, 500, 9⟩ 7 initState = ⟨[], [], 0, [3], [500]⟩ := by
  refine ⟨?_, ?_, ?_⟩
  · have h := (C5_aggregation_amended ⟨0, 0, 100⟩ 7 initState).2.1 (by decide) (by decide)
    rw [h]; rfl
  · exact (C5_aggregation_amended ⟨0, 0, 512⟩ 7 initState).1 (by decide)
  · have h := (C5_aggregation_amended ⟨3, 500, 9⟩ 7 initState).2.2 (by decide) (by decide)
    rw [h]; rfl

/-- C6: a page whose metadata has both the reserved and the LRU flag set is
classified reserved by both taxonomies: the fine nine-way `page_type`
returns `RESERVED` unconditionally (reserved is the first check) and in
particular not the movable class `LRU`; and the coarse inner loop, provided
the page is not detected as buddy or compound (those take precedence),
takes the reserved branch — it increments only the reserved tally and
leaves the movable tally unchanged. -/
theorem C6_reserved_precedence (m : Masks) (zs : ℕ) (p : Page) (fp : FPage)
    (hres : PageReserved m p = true) (hlru : PageLRU m p = true)
    (hfres : fp.reserved = true) (hflru : fp.lru = true)
    (hnb : PageBuddy p = false) (hnc : PageCompound m p = false) :
    page_type zs fp = RESERVED
  ∧ page_type zs fp ≠ LRU
  ∧ (∀ (P : ℕ → Page) (bs be fuel pfn : ℕ) (t : Tallies) (st : ScanState),
      pfn < be → P pfn = p →
      blockLoop m P bs be (fuel + 1) pfn t st =
        blockLoop m P bs be fuel (pfn + 1) { t with reserved := t.reserved + 1 } st) := by
  refine ⟨by simp [page_type, hfres], by simp [page_type, hfres, RESERVED, LRU], ?_⟩
  intro P bs be fuel pfn t st hlt hPp
  simp only [blockLoop]
  rw [if_pos hlt]
  simp only [hPp, hnb, hnc, hres, Bool.false_eq_true, if_false, if_true]

/-- Closed witness for `C6_reserved_precedence` on a concrete
reserved-and-LRU page in both representations. -/
theorem C6_reserved_precedence_witness :
    page_type 0 ⟨true, true, false, false, false, 0, 0, 0, 0, 1, 0, 1⟩ = RESERVED
  ∧ blockLoop masksA (fun _ => reservedLruPage) 0 512 1 0 ⟨0, 0, 0⟩ initState
      = blockLoop masksA (fun _ => reservedLruPage) 0 512 0 1 ⟨0, 0, 1⟩ initState := by
  obtain ⟨h1, h2, h3⟩ := C6_reserved_precedence masksA 0 reservedLruPage
    ⟨true, true, false, false, false, 0, 0, 0, 0, 1, 0, 1⟩
    (by decide) (by decide) (by decide) (by decide) (by decide) (by decide)
  refine ⟨h1, ?_⟩
  have h4 := h3 (fun _ => reservedLruPage) 0 512 0 0 ⟨0, 0, 0⟩ initState (by decide) rfl
  simpa using h4

/-- C8 fails on the fine-mode code: the committed outer loop runs
`while pfn <= 0x400` (the `while pfn < max_pfn` condition is commented
out), so with every section valid the walk visits only the block starts 0,
512, 1024 and then stops — in particular the block at pfn 1536 is below a
`max_pfn` of 4096 yet never classified.  The walk does not consult
`max_pfn` at all. -/
theorem C8_code_evaluation :
    fineWalk (fun _ => true) 4 0 [] = some [0, 512, 1024]
  ∧ (1536 : ℕ) < 4096
  ∧ (1536 : ℕ) ∉ ([0, 512, 1024] : List ℕ) := by
  refine ⟨by decide, by decide, by decide⟩

/-- C9: in fine mode, whenever the loop reaches a non-buddy page whose
compound frame count exceeds one full block (512 frames), the scan aborts
fatally with a diagnostic holding the offending pfn and the bogus size; it
is the only abort — whenever every page is a buddy page or reports a
compound frame count of at most 512 (and at least 1, so the loop advances),
the block loop always ends in `.ok`, regardless of any migratetype
mismatches, which only print findings. -/
theorem C9_bogus_compound_abort (zs : ℕ) (FP : ℕ → FPage) (pfn : ℕ) :
    (∀ fuel i t, i < 1 <<< pageblock_order →
        page_type zs (FP (pfn + i)) ≠ BUDDY →
        512 < (FP (pfn + i)).compound_nr →
        fineBlockLoop zs FP pfn (fuel + 1) i t =
          some (.error (toString (pfn + i) ++ ": bogus compound size "
            ++ toString ((FP (pfn + i)).compound_nr))))
  ∧ ((∀ j, 1 ≤ (FP (pfn + j)).compound_nr) →
     (∀ j, page_type zs (FP (pfn + j)) = BUDDY ∨ (FP (pfn + j)).compound_nr ≤ 512) →
     ∀ fuel i t, (1 <<< pageblock_order) - i ≤ fuel →
        ∃ t2, fineBlockLoop zs FP pfn fuel i t = some (.ok t2)) := by
  constructor
  · intro fuel i t hi hb hnr
    simp only [fineBlockLoop]
    rw [if_pos hi, if_neg hb, if_pos hnr]
  · intro hnr hgood fuel
    induction fuel with
    | zero =>
      intro i t hf
      simp only [fineBlockLoop]
      rw [if_neg (by omega)]
      exact ⟨t, rfl⟩
    | succ fuel ih =>
      intro i t hf
      by_cases hi : i < 1 <<< pageblock_order
      · simp only [fineBlockLoop]
        rw [if_pos hi]
        have hpos : 1 ≤ (FP (pfn + i)).compound_nr := hnr i
        have hbp : 1 ≤ 1 <<< (FP (pfn + i)).priv := one_le_one_shiftLeft _
        rcases hgood i with hbud | hle
        · rw [if_pos hbud]
          exact ih _ _ (by omega)
        · by_cases hbud : page_type zs (FP (pfn + i)) = BUDDY
          · rw [if_pos hbud]
            exact ih _ _ (by omega)
          · rw [if_neg hbud, if_neg (by omega : ¬ 512 < (FP (pfn + i)).compound_nr)]
            split
            · exact ih _ _ (by omega)
            · split
              · exact ih _ _ (by omega)
              · split
                · exact ih _ _ (by omega)
                · split
                  · exact ih _ _ (by omega)
                  · split
                    · exact ih _ _ (by omega)
                    · split
                      · exact ih _ _ (by omega)
                      · split
                        · exact ih _ _ (by omega)
                        · exact ih _ _ (by omega)
      · simp only [fineBlockLoop]
        rw [if_neg hi]
        exact ⟨t, rfl⟩

/-- A fine-mode page with a bogus compound frame count of 513. -/
def badFPage : FPage := ⟨false, false, false, false, false, 0, 0, 0, 0, 1, 0, 513⟩

/-- A fine-mode page with an ordinary compound frame count of 1. -/
def goodFPage : FPage := ⟨false, false, false, false, false, 0, 0, 0, 0, 1, 0, 1⟩

/-- Zero-initialized fine-mode tallies. -/
def fT0 : FTallies := ⟨0, 0, 0, 0, 0, 0, false⟩

/-- Closed witness for `C9_bogus_compound_abort`: the abort fires with its
diagnostic on a size-513 page, and a well-sized block ends in `.ok`. -/
theorem C9_bogus_compound_abort_witness :
    fineBlockLoop 0 (fun _ => badFPage) 0 512 0 fT0
      = some (.error ("0: bogus compound size 513"))
  ∧ ∃ t2, fineBlockLoop 0 (fun _ => goodFPage) 0 1 511 fT0 = some (.ok t2) := by
  constructor
  · have h := (C9_bogus_compound_abort 0 (fun _ => badFPage) 0).1 511 0 fT0
      (by decide) (by decide) (by decide)
    exact h.trans (by decide)
  · exact (C9_bogus_compound_abort 0 (fun _ => goodFPage) 0).2
      (fun j => show 1 ≤ goodFPage.compound_nr by decide)
      (fun j => Or.inr (show goodFPage.compound_nr ≤ 512 by decide))
      1 511 fT0 (by decide)
